import Mathlib

/-!
Verification development for the clickit-ai image upload tool (`src/app.py`).

The program is a Streamlit app that lists Excel spreadsheets in Dropbox,
decodes one into a catalog of product models, accumulates captured images in a
per-label session map, and uploads each image to a destination path derived
from the spreadsheet location, row number and sanitized filename.

This file gives a shallow embedding of the pure logic of that program:
strings are `List Char` where character-level reasoning is needed, Python
dicts are association lists with update-in-place semantics, and the Dropbox /
filesystem effects are environments (oracles) passed explicitly.
-/

/-! ## Characters and Python string primitives -/

abbrev Chars := List Char

/-- Membership test of the character class `[\w\-_.() ]` from the regex in
`sanitize_filename` (src/app.py line 71).  `\w` is modelled by its ASCII core
(letters, digits, underscore). -/
def isAllowedClass (c : Char) : Bool :=
  c.isAlphanum || c == '_' || c == '-' || c == '.' || c == '(' || c == ')' || c == ' '

/-- First step of `sanitize_filename`: `re.sub(r"[^\w\-_.() ]", "_", name)`,
replacing every character outside the allowed class by an underscore. -/
def reSubDisallowed (l : Chars) : Chars :=
  l.map (fun c => if isAllowedClass c then c else '_')

/-- Second step of `sanitize_filename`: `name.replace(" ", "_")`. -/
def replaceSpace (l : Chars) : Chars :=
  l.map (fun c => if c == ' ' then '_' else c)

/-- `sanitize_filename` from src/app.py lines 69-72, at the character-list
level: substitute disallowed characters by `_`, then spaces by `_`. -/
def sanitizeC (l : Chars) : Chars :=
  replaceSpace (reSubDisallowed l)

/-- `sanitize_filename` on `String` (the Python function first does
`str(name)`; the embedding takes the string form directly). -/
def sanitize_filename (s : String) : String :=
  String.mk (sanitizeC s.toList)

/-- The combined per-character action of `sanitize_filename`. -/
def sanChar (c : Char) : Char :=
  if (if isAllowedClass c then c else '_') == ' ' then '_'
  else (if isAllowedClass c then c else '_')

theorem sanitizeC_eq_map (l : Chars) : sanitizeC l = l.map sanChar := by
  simp only [sanitizeC, replaceSpace, reSubDisallowed, List.map_map]
  apply List.map_congr_left
  intro a _
  simp [sanChar, Function.comp]

theorem sanitizeC_append (a b : Chars) :
    sanitizeC (a ++ b) = sanitizeC a ++ sanitizeC b := by
  simp [sanitizeC_eq_map]

theorem sanitizeC_length (l : Chars) : (sanitizeC l).length = l.length := by
  simp [sanitizeC_eq_map]

/-- Characters allowed in the output of the sanitizer according to the spec:
alphanumeric, underscore, hyphen, period, parentheses (no space). -/
def allowedOutput (c : Char) : Bool :=
  c.isAlphanum || c == '_' || c == '-' || c == '.' || c == '(' || c == ')'

theorem sanChar_allowedOutput (c : Char) : allowedOutput (sanChar c) = true := by
  by_cases h : isAllowedClass c = true
  · by_cases hsp : c = ' '
    · subst hsp; decide
    · have h1 : sanChar c = c := by
        simp [sanChar, h]
        intro hc
        exact absurd hc hsp
      rw [h1]
      have h2 := h
      simp only [isAllowedClass, Bool.or_eq_true, beq_iff_eq] at h2
      rcases h2 with ((((((ha | ha) | ha) | ha) | ha) | ha) | ha)
      · simp [allowedOutput, ha]
      · subst ha; decide
      · subst ha; decide
      · subst ha; decide
      · subst ha; decide
      · subst ha; decide
      · exact absurd ha hsp
  · have h1 : sanChar c = '_' := by simp [sanChar, h]
    rw [h1]; decide

theorem sanChar_idem (c : Char) : sanChar (sanChar c) = sanChar c := by
  by_cases h : isAllowedClass c = true
  · by_cases hsp : c = ' '
    · subst hsp; decide
    · have h1 : sanChar c = c := by
        simp [sanChar, h]
        intro hcsp
        exact absurd hcsp hsp
      rw [h1, h1]
  · have h1 : sanChar c = '_' := by simp [sanChar, h]
    rw [h1]; decide

theorem sanChar_ne_slash (c : Char) : sanChar c ≠ '/' := by
  by_cases hc : c = '/'
  · subst hc; decide
  · by_cases h : isAllowedClass c = true
    · by_cases hsp : c = ' '
      · subst hsp; decide
      · have h1 : sanChar c = c := by
          simp [sanChar, h]
          intro hcsp
          exact absurd hcsp hsp
        rw [h1]; exact hc
    · have h1 : sanChar c = '_' := by simp [sanChar, h]
      rw [h1]; decide

/-- No slash character occurs in the list. -/
def noSlash (l : Chars) : Bool := l.all (fun c => c != '/')

theorem sanitizeC_noSlash (l : Chars) : noSlash (sanitizeC l) = true := by
  rw [sanitizeC_eq_map]
  simp only [noSlash, List.all_eq_true, List.mem_map]
  rintro x ⟨c, _, rfl⟩
  simpa using sanChar_ne_slash c

theorem sanitizeC_idem (l : Chars) : sanitizeC (sanitizeC l) = sanitizeC l := by
  simp only [sanitizeC_eq_map, List.map_map]
  apply List.map_congr_left
  intro a _
  exact sanChar_idem a

/-- C5 helper: every character of the sanitizer output is in the allowed set. -/
theorem sanitizeC_allowedOutput (l : Chars) :
    (sanitizeC l).all allowedOutput = true := by
  rw [sanitizeC_eq_map]
  simp only [List.all_eq_true, List.mem_map]
  rintro x ⟨c, _, rfl⟩
  exact sanChar_allowedOutput c

/-- C5: for every input string, `sanitize_filename` returns a string whose
characters all lie in the allowed set (alphanumeric, underscore, hyphen,
period, parentheses — spaces having been replaced by underscore), and the
function is idempotent. -/
theorem sanitize_filename_allowed_and_idempotent (s : String) :
    (sanitize_filename s).toList.all allowedOutput = true ∧
    sanitize_filename (sanitize_filename s) = sanitize_filename s := by
  constructor
  · exact sanitizeC_allowedOutput s.toList
  · show String.mk (sanitizeC (sanitizeC s.toList)) = String.mk (sanitizeC s.toList)
    rw [sanitizeC_idem]

/-! ## Python decimal representation of a nonnegative integer (`str(n)`) -/

/-- Fuel-indexed decimal digits of a natural number (most significant first).
With fuel at least `n + 1` this is the decimal representation `str(n)`. -/
def decChars : Nat → Nat → Chars
  | 0, _ => []
  | fuel + 1, n =>
      if n < 10 then [Nat.digitChar n]
      else decChars fuel (n / 10) ++ [Nat.digitChar (n % 10)]

/-- Python `str(n)` for a nonnegative integer `n`. -/
def pyStr (n : Nat) : Chars := decChars (n + 1) n

theorem decChars_ne_nil (fuel n : Nat) : decChars (fuel + 1) n ≠ [] := by
  unfold decChars
  split
  · simp
  · simp

theorem pyStr_ne_nil (n : Nat) : pyStr n ≠ [] := decChars_ne_nil n n

/-! ## Python `"//"`-collapsing

`str.replace("//", "/")` scans left to right and replaces non-overlapping
occurrences of `"//"` by `"/"`; for this pattern that is the following
recursion. -/

def pyReplaceDS : Chars → Chars
  | [] => []
  | [c] => [c]
  | c :: d :: rest =>
      if c = '/' ∧ d = '/' then '/' :: pyReplaceDS rest
      else c :: pyReplaceDS (d :: rest)

/-- Whether the list contains two consecutive slashes (`"//"`). -/
def hasDS : Chars → Bool
  | [] => false
  | [_] => false
  | c :: d :: rest => (c = '/' && d = '/') || hasDS (d :: rest)

theorem hasDS_cons (c : Char) (l : Chars) (hc : c ≠ '/') :
    hasDS (c :: l) = hasDS l := by
  cases l with
  | nil => rfl
  | cons d l' => simp [hasDS, hc]

theorem hasDS_slash_cons (l : Chars) (hl : l.head? ≠ some '/') :
    hasDS ('/' :: l) = hasDS l := by
  cases l with
  | nil => rfl
  | cons d l' =>
      have hd : d ≠ '/' := by intro h; apply hl; simp [h]
      simp [hasDS, hd]

theorem noSlash_hasDS (l : Chars) (h : noSlash l = true) : hasDS l = false := by
  induction l with
  | nil => rfl
  | cons c l ih =>
      simp only [noSlash, List.all_cons, Bool.and_eq_true, bne_iff_ne] at h
      rw [hasDS_cons c l h.1]
      exact ih (by simp [noSlash, h.2])

theorem hasDS_append_noSlash (q m : Chars) (h : noSlash q = true) :
    hasDS (q ++ m) = hasDS m := by
  induction q with
  | nil => rfl
  | cons c q ih =>
      simp only [noSlash, List.all_cons, Bool.and_eq_true, bne_iff_ne] at h
      rw [List.cons_append, hasDS_cons c _ h.1]
      exact ih (by simp [noSlash, h.2])

theorem pyReplaceDS_of_hasDS_false (l : Chars) (h : hasDS l = false) :
    pyReplaceDS l = l := by
  induction l with
  | nil => rfl
  | cons c l ih =>
      cases l with
      | nil => rfl
      | cons d l' =>
          simp only [hasDS, Bool.or_eq_false_iff, Bool.and_eq_false_iff,
            decide_eq_false_iff_not] at h
          have hnot : ¬(c = '/' ∧ d = '/') := by
            rcases h.1 with h' | h'
            · intro hx; exact h' hx.1
            · intro hx; exact h' hx.2
          simp only [pyReplaceDS, if_neg hnot]
          rw [ih h.2]

theorem pyReplaceDS_slash_slash (l : Chars) :
    pyReplaceDS ('/' :: '/' :: l) = '/' :: pyReplaceDS l := by
  simp [pyReplaceDS]

theorem pyReplaceDS_slash_cons (l : Chars) (hl : l.head? ≠ some '/') :
    pyReplaceDS ('/' :: l) = '/' :: pyReplaceDS l := by
  cases l with
  | nil => rfl
  | cons d l' =>
      have hd : d ≠ '/' := by intro h; apply hl; simp [h]
      simp [pyReplaceDS, hd]

/-! ## PurePosixPath model

`pathlib.PurePosixPath` parses a POSIX path into a root (`""`, `"/"` or, for
exactly two leading slashes, `"//"`) and a list of components with empty and
`"."` parts dropped.  `parent` drops the last component, `as_posix` joins root
and components with `"/"`, `name` is the last component and `stem` is the name
up to its last dot (when that dot is neither first nor last). -/

/-- Python `"/".join`-style joining of path pieces. -/
def joinSeg : List Chars → Chars
  | [] => []
  | [p] => p
  | p :: ps => p ++ '/' :: joinSeg ps

/-- Split on `'/'` like Python `str.split("/")`. -/
def splitSlash : Chars → List Chars
  | [] => [[]]
  | c :: rest =>
      if c = '/' then [] :: splitSlash rest
      else
        match splitSlash rest with
        | [] => [[c]]
        | p :: ps => (c :: p) :: ps

/-- The root of a POSIX path: exactly two leading slashes give `"//"`, one
slash or three and more give `"/"`, none gives `""`. -/
def posixRoot : Chars → Chars
  | '/' :: '/' :: '/' :: _ => ['/']
  | '/' :: '/' :: _ => ['/', '/']
  | '/' :: _ => ['/']
  | _ => []

/-- A piece survives PurePosixPath parsing when it is nonempty and not `"."`. -/
def keepPiece (p : Chars) : Bool := !(p == []) && !(p == ['.'])

/-- The parsed components of a POSIX path. -/
def compsOf (l : Chars) : List Chars := (splitSlash l).filter keepPiece

/-- `PurePosixPath(p).name`: the last component, or empty. -/
def nameOf (l : Chars) : Chars := ((compsOf l).getLast?).getD []

/-- `as_posix()` of a parsed (root, components) pair. -/
def asPosix (root : Chars) (comps : List Chars) : Chars :=
  match comps with
  | [] => if root = [] then ['.'] else root
  | _ => root ++ joinSeg comps

/-- Index of the last `'.'` in a name (Python `str.rfind(".")`), if any. -/
def rfindDot : Chars → Option Nat
  | [] => none
  | c :: rest =>
      match rfindDot rest with
      | some i => some (i + 1)
      | none => if c = '.' then some 0 else none

/-- `PurePosixPath(p).stem`: the name up to its last dot, provided that dot is
neither the first nor the last character of the name. -/
def stemOf (name : Chars) : Chars :=
  match rfindDot name with
  | some i => if 0 < i ∧ i + 1 < name.length then name.take i else name
  | none => name

/-! ## The upload path construction (src/app.py lines 157-170) -/

/-- `excel_base = sanitize_filename(PurePosixPath(selected_excel).stem)`. -/
def excel_base (loc : Chars) : Chars := sanitizeC (stemOf (nameOf loc))

/-- `excel_parent = PurePosixPath(selected_excel).parent.as_posix()`. -/
def excel_parent_raw (loc : Chars) : Chars :=
  asPosix (posixRoot loc) ((compsOf loc).dropLast)

/-- `if excel_parent in [".", "", "/"]: excel_parent = ""`. -/
def excel_parent (loc : Chars) : Chars :=
  if excel_parent_raw loc = ['.'] ∨ excel_parent_raw loc = [] ∨ excel_parent_raw loc = ['/']
  then [] else excel_parent_raw loc

/-- `root_upload_folder = f"/{excel_parent}/{excel_base}".replace("//", "/")`. -/
def root_upload_folder (loc : Chars) : Chars :=
  pyReplaceDS ('/' :: (excel_parent loc ++ '/' :: excel_base loc))

/-- `dropbox_path = f"{root_upload_folder}/{subfolder}/{sanitize_filename(img['filename'])}".replace("//", "/")`
with `subfolder = sanitize_filename(str(img["row"]))`. -/
def img_dropbox_path (root : Chars) (row : Nat) (filename : Chars) : Chars :=
  pyReplaceDS (root ++ '/' :: (sanitizeC (pyStr row) ++ '/' :: sanitizeC filename))

/-- The full destination path for an image, from the spreadsheet location, the
row number and the image filename. -/
def dropbox_path (loc : Chars) (row : Nat) (filename : Chars) : Chars :=
  img_dropbox_path (root_upload_folder loc) row filename

/-- String-level destination path builder. -/
def dropbox_path_str (loc : String) (row : Nat) (filename : String) : String :=
  String.mk (dropbox_path loc.toList row filename.toList)

/-- The case-insensitive spreadsheet extension test used by the listing code:
`entry.name.lower().endswith((".xls", ".xlsx"))`. -/
def is_excel_name (s : String) : Bool :=
  (".xls".toList.isSuffixOf (s.toList.map Char.toLower)) ||
  (".xlsx".toList.isSuffixOf (s.toList.map Char.toLower))

/-- C7: the Remote Path Builder maps location `/Stock/Models.xlsx`, row 5 and
filename `X_1.jpg` to exactly `/Stock/Models/5/X_1.jpg`. -/
theorem dropbox_path_stock_models :
    dropbox_path_str "/Stock/Models.xlsx" 5 "X_1.jpg" = "/Stock/Models/5/X_1.jpg" := by
  rfl

/-! ## Lemmas about joined path pieces -/

/-- Pieces that join into a clean path: all slash-free and, except possibly
the last one, nonempty. -/
def goodPieces : List Chars → Bool
  | [] => true
  | [p] => noSlash p
  | p :: ps => !(p == []) && noSlash p && goodPieces ps

theorem joinSeg_cons (p : Chars) (ps : List Chars) (h : ps ≠ []) :
    joinSeg (p :: ps) = p ++ '/' :: joinSeg ps := by
  cases ps with
  | nil => exact absurd rfl h
  | cons q qs => rfl

theorem joinSeg_append (ps qs : List Chars) (hp : ps ≠ []) (hq : qs ≠ []) :
    joinSeg (ps ++ qs) = joinSeg ps ++ '/' :: joinSeg qs := by
  induction ps with
  | nil => exact absurd rfl hp
  | cons p ps ih =>
      cases ps with
      | nil =>
          simp only [List.nil_append, List.cons_append]
          rw [joinSeg_cons p qs hq]
          rfl
      | cons r rs =>
          rw [List.cons_append, joinSeg_cons p ((r :: rs) ++ qs) (by simp),
            joinSeg_cons p (r :: rs) (by simp), ih (by simp)]
          simp

theorem goodPieces_head (p : Chars) (ps : List Chars) (h : goodPieces (p :: ps) = true) :
    noSlash p = true := by
  cases ps with
  | nil => exact h
  | cons q qs =>
      simp only [goodPieces, Bool.and_eq_true] at h
      exact h.1.2

theorem goodPieces_tail (p : Chars) (ps : List Chars) (h : goodPieces (p :: ps) = true) :
    goodPieces ps = true := by
  cases ps with
  | nil => rfl
  | cons q qs =>
      simp only [goodPieces, Bool.and_eq_true] at h
      exact h.2

theorem goodPieces_head_ne_nil (p : Chars) (ps : List Chars) (hps : ps ≠ [])
    (h : goodPieces (p :: ps) = true) : p ≠ [] := by
  cases ps with
  | nil => exact absurd rfl hps
  | cons q qs =>
      simp only [goodPieces, Bool.and_eq_true, Bool.not_eq_eq_eq_not, Bool.not_true,
        beq_eq_false_iff_ne, ne_eq] at h
      exact h.1.1

theorem noSlash_head (p : Chars) (h : noSlash p = true) : p.head? ≠ some '/' := by
  cases p with
  | nil => simp
  | cons c l =>
      simp only [noSlash, List.all_cons, Bool.and_eq_true, bne_iff_ne, ne_eq] at h
      simp [h.1]

theorem joinSeg_head_ne_slash (ps : List Chars) (h : goodPieces ps = true) :
    (joinSeg ps).head? ≠ some '/' := by
  cases ps with
  | nil => simp [joinSeg]
  | cons p ps' =>
      cases ps' with
      | nil => exact noSlash_head p h
      | cons q qs =>
          rw [joinSeg_cons p (q :: qs) (by simp)]
          have hp : p ≠ [] := goodPieces_head_ne_nil p (q :: qs) (by simp) h
          have hns : noSlash p = true := goodPieces_head p (q :: qs) h
          cases p with
          | nil => exact absurd rfl hp
          | cons c l =>
              simp only [noSlash, List.all_cons, Bool.and_eq_true, bne_iff_ne, ne_eq] at hns
              simp [hns.1]

theorem joinSeg_hasDS_false (ps : List Chars) (h : goodPieces ps = true) :
    hasDS (joinSeg ps) = false := by
  induction ps with
  | nil => rfl
  | cons p ps' ih =>
      cases ps' with
      | nil => exact noSlash_hasDS p h
      | cons q qs =>
          rw [joinSeg_cons p (q :: qs) (by simp)]
          rw [hasDS_append_noSlash p _ (goodPieces_head p (q :: qs) h)]
          rw [hasDS_slash_cons _ (joinSeg_head_ne_slash (q :: qs) (goodPieces_tail p _ h))]
          exact ih (goodPieces_tail p _ h)

theorem joinSeg_ne_nil (p : Chars) (ps : List Chars) (hp : p ≠ []) :
    joinSeg (p :: ps) ≠ [] := by
  cases ps with
  | nil => exact hp
  | cons q qs =>
      rw [joinSeg_cons p (q :: qs) (by simp)]
      cases p with
      | nil => exact absurd rfl hp
      | cons c l => simp

theorem goodPieces_append (cs : List Chars) (rest : List Chars)
    (hcs : ∀ p ∈ cs, p ≠ [] ∧ noSlash p = true) (hrest : goodPieces rest = true)
    (hrne : rest ≠ []) : goodPieces (cs ++ rest) = true := by
  induction cs with
  | nil => simpa using hrest
  | cons c cs' ih =>
      have hc := hcs c (by simp)
      have hrec : goodPieces (cs' ++ rest) = true :=
        ih (fun p hp => hcs p (by simp [hp]))
      have hne : cs' ++ rest ≠ [] := by
        cases cs' <;> simp [hrne]
      rw [List.cons_append]
      cases hx : cs' ++ rest with
      | nil => exact absurd hx hne
      | cons y ys =>
          show (!(c == []) && noSlash c && goodPieces (y :: ys)) = true
          rw [← hx, hrec]
          simp [hc.1, hc.2]

theorem goodPieces_of_all (ps : List Chars)
    (h : ∀ p ∈ ps, p ≠ [] ∧ noSlash p = true) : goodPieces ps = true := by
  induction ps with
  | nil => rfl
  | cons p ps' ih =>
      cases ps' with
      | nil => exact (h p (by simp)).2
      | cons q qs =>
          have hp := h p (by simp)
          show (!(p == []) && noSlash p && goodPieces (q :: qs)) = true
          rw [ih (fun r hr => h r (by simp [hr]))]
          simp [hp.1, hp.2]

theorem getLast?_cons_of_ne {α : Type} (c : α) (l : List α) (h : l ≠ []) :
    (c :: l).getLast? = l.getLast? := by
  cases l with
  | nil => exact absurd rfl h
  | cons x xs => exact List.getLast?_cons_cons

theorem splitSlash_ne_nil (l : Chars) : splitSlash l ≠ [] := by
  cases l with
  | nil => simp [splitSlash]
  | cons c rest =>
      unfold splitSlash
      split
      · simp
      · split
        · simp
        · simp

theorem splitSlash_slash (rest : Chars) :
    splitSlash ('/' :: rest) = [] :: splitSlash rest := by
  simp [splitSlash]

theorem splitSlash_cons_ne (c : Char) (rest : Chars) (hc : c ≠ '/') :
    splitSlash (c :: rest) =
      match splitSlash rest with
      | [] => [[c]]
      | p :: ps => (c :: p) :: ps := by
  simp [splitSlash, hc]

theorem noSlash_of_mem_splitSlash (l : Chars) (p : Chars) (hp : p ∈ splitSlash l) :
    noSlash p = true := by
  induction l generalizing p with
  | nil =>
      simp only [splitSlash, List.mem_singleton] at hp
      subst hp; rfl
  | cons c rest ih =>
      by_cases hc : c = '/'
      · subst hc
        rw [splitSlash_slash, List.mem_cons] at hp
        rcases hp with hp | hp
        · subst hp; rfl
        · exact ih p hp
      · rw [splitSlash_cons_ne c rest hc] at hp
        cases hs : splitSlash rest with
        | nil => exact absurd hs (splitSlash_ne_nil rest)
        | cons q qs =>
            rw [hs] at hp
            simp only [List.mem_cons] at hp
            rcases hp with hp | hp
            · subst hp
              have hq : noSlash q = true := ih q (by rw [hs]; simp)
              simp only [noSlash, List.all_cons, Bool.and_eq_true, bne_iff_ne, ne_eq]
              exact ⟨hc, by simpa [noSlash] using hq⟩
            · exact ih p (by rw [hs]; simp [hp])

theorem splitSlash_getLast (l : Chars) (a : Char) (ha : l.getLast? = some a)
    (hsl : a ≠ '/') :
    ∃ p, (splitSlash l).getLast? = some p ∧ p.getLast? = some a := by
  induction l with
  | nil => simp at ha
  | cons c rest ih =>
      by_cases hne : rest = []
      · subst hne
        simp only [List.getLast?_singleton, Option.some.injEq] at ha
        subst ha
        have hc : c ≠ '/' := hsl
        refine ⟨[c], ?_, by simp⟩
        rw [splitSlash_cons_ne c [] hc]
        simp [splitSlash]
      · rw [getLast?_cons_of_ne c rest hne] at ha
        obtain ⟨p, hp1, hp2⟩ := ih ha
        by_cases hc : c = '/'
        · subst hc
          refine ⟨p, ?_, hp2⟩
          rw [splitSlash_slash]
          rw [getLast?_cons_of_ne _ _ (splitSlash_ne_nil rest)]
          exact hp1
        · rw [splitSlash_cons_ne c rest hc]
          cases hs : splitSlash rest with
          | nil => exact absurd hs (splitSlash_ne_nil rest)
          | cons q qs =>
              rw [hs] at hp1
              cases hqs : qs with
              | nil =>
                  subst hqs
                  have hpq : p = q := by simpa using hp1.symm
                  subst hpq
                  have hpne : p ≠ [] := by
                    intro hx; rw [hx] at hp2; simp at hp2
                  refine ⟨c :: p, by simp, ?_⟩
                  rw [getLast?_cons_of_ne c p hpne]
                  exact hp2
              | cons y ys =>
                  subst hqs
                  refine ⟨p, ?_, hp2⟩
                  rw [getLast?_cons_of_ne (c :: q) (y :: ys) (by simp)]
                  rw [getLast?_cons_of_ne q (y :: ys) (by simp)] at hp1
                  exact hp1

/-- Every component kept by PurePosixPath parsing is nonempty, not `"."` and
slash-free. -/
theorem compsOf_facts (l : Chars) (p : Chars) (hp : p ∈ compsOf l) :
    p ≠ [] ∧ p ≠ ['.'] ∧ noSlash p = true := by
  rw [compsOf, List.mem_filter] at hp
  have hk := hp.2
  simp only [keepPiece, Bool.and_eq_true, Bool.not_eq_eq_eq_not, Bool.not_true,
    beq_eq_false_iff_ne, ne_eq] at hk
  exact ⟨hk.1, hk.2, noSlash_of_mem_splitSlash l p hp.1⟩

theorem mem_of_mem_dropLast {α : Type} (l : List α) (x : α) (h : x ∈ l.dropLast) :
    x ∈ l := (List.dropLast_sublist l).subset h

theorem getLast?_exists {α : Type} (c : α) (l : List α) :
    ∃ a, (c :: l).getLast? = some a ∧ a ∈ c :: l := by
  induction l generalizing c with
  | nil => exact ⟨c, rfl, by simp⟩
  | cons d t ih =>
      obtain ⟨a, h1, h2⟩ := ih d
      refine ⟨a, ?_, ?_⟩
      · rw [getLast?_cons_of_ne c (d :: t) (by simp)]
        exact h1
      · simp only [List.mem_cons] at h2 ⊢
        tauto

theorem posixRoot_cases (l : Chars) :
    posixRoot l = [] ∨ posixRoot l = ['/'] ∨ posixRoot l = ['/', '/'] := by
  unfold posixRoot
  split
  · simp
  · simp
  · simp
  · simp

theorem stemOf_ne_nil (name : Chars) (h : name ≠ []) : stemOf name ≠ [] := by
  unfold stemOf
  cases hr : rfindDot name with
  | none => exact h
  | some i =>
      show (if 0 < i ∧ i + 1 < name.length then name.take i else name) ≠ []
      by_cases hcond : 0 < i ∧ i + 1 < name.length
      · rw [if_pos hcond]
        have : (name.take i).length = i := by
          rw [List.length_take]
          omega
        intro hx
        rw [hx] at this
        simp at this
        omega
      · rw [if_neg hcond]
        exact h

theorem noSlash_take (l : Chars) (i : Nat) (h : noSlash l = true) :
    noSlash (l.take i) = true := by
  simp only [noSlash, List.all_eq_true] at h ⊢
  intro x hx
  exact h x (List.take_subset i l hx)

theorem noSlash_stemOf (name : Chars) (h : noSlash name = true) :
    noSlash (stemOf name) = true := by
  unfold stemOf
  cases rfindDot name with
  | none => exact h
  | some i =>
      show noSlash (if 0 < i ∧ i + 1 < name.length then name.take i else name) = true
      by_cases hcond : 0 < i ∧ i + 1 < name.length
      · rw [if_pos hcond]; exact noSlash_take name i h
      · rw [if_neg hcond]; exact h

theorem joinSeg_not_special (cs : List Chars) (hne : cs ≠ [])
    (h : ∀ p ∈ cs, p ≠ [] ∧ p ≠ ['.'] ∧ noSlash p = true) :
    joinSeg cs ≠ [] ∧ joinSeg cs ≠ ['.'] ∧ joinSeg cs ≠ ['/'] := by
  cases cs with
  | nil => exact absurd rfl hne
  | cons c cs' =>
      cases cs' with
      | nil =>
          obtain ⟨h1, h2, h3⟩ := h c (by simp)
          refine ⟨h1, h2, ?_⟩
          intro hx
          show False
          have : noSlash ['/'] = true := by rw [← hx]; exact h3
          simp [noSlash] at this
      | cons d t =>
          have hcne : c ≠ [] := (h c (by simp)).1
          have hdne : d ≠ [] := (h d (by simp)).1
          have hlen : 3 ≤ (joinSeg (c :: d :: t)).length := by
            rw [joinSeg_cons c (d :: t) (by simp)]
            have h1 : 1 ≤ c.length := List.length_pos.mpr hcne
            have h2 : 1 ≤ (joinSeg (d :: t)).length :=
              List.length_pos.mpr (joinSeg_ne_nil d t hdne)
            simp only [List.length_append, List.length_cons]
            omega
          refine ⟨?_, ?_, ?_⟩
          · intro hx; rw [hx] at hlen; simp at hlen
          · intro hx; rw [hx] at hlen; simp at hlen
          · intro hx; rw [hx] at hlen; simp at hlen

theorem compsOf_ne_nil_of_getLast (l : Chars) (a : Char) (ha : l.getLast? = some a)
    (h1 : a ≠ '/') (h2 : a ≠ '.') : compsOf l ≠ [] := by
  obtain ⟨p, hp1, hp2⟩ := splitSlash_getLast l a ha h1
  have hmem : p ∈ splitSlash l := by
    obtain ⟨hh, hx⟩ := List.mem_getLast?_eq_getLast (l := splitSlash l) (x := p)
      (by rw [hp1]; exact Option.mem_def.mpr rfl)
    rw [hx]
    exact List.getLast_mem hh
  have hpn : p ≠ [] := by
    intro hx; rw [hx] at hp2; simp at hp2
  have hpd : p ≠ ['.'] := by
    intro hx
    rw [hx] at hp2
    simp only [List.getLast?_singleton, Option.some.injEq] at hp2
    exact h2 hp2.symm
  have : p ∈ compsOf l := by
    rw [compsOf, List.mem_filter]
    refine ⟨hmem, ?_⟩
    simp [keepPiece, hpn, hpd]
  exact List.ne_nil_of_mem this

theorem hasDS_pyReplaceDS_slash (X : Chars) (hX : hasDS X = false)
    (hh : X.head? ≠ some '/') :
    hasDS (pyReplaceDS ('/' :: X)) = false := by
  rw [pyReplaceDS_slash_cons X hh, pyReplaceDS_of_hasDS_false X hX, hasDS_slash_cons X hh]
  exact hX

theorem hasDS_pyReplaceDS_slash_slash (X : Chars) (hX : hasDS X = false)
    (hh : X.head? ≠ some '/') :
    hasDS (pyReplaceDS ('/' :: '/' :: X)) = false := by
  rw [pyReplaceDS_slash_slash, pyReplaceDS_of_hasDS_false X hX, hasDS_slash_cons X hh]
  exact hX

theorem pyReplaceDS_one_slash (J : Chars) (hds : hasDS J = false)
    (hh : J.head? ≠ some '/') : pyReplaceDS ('/' :: J) = '/' :: J := by
  rw [pyReplaceDS_slash_cons J hh, pyReplaceDS_of_hasDS_false J hds]

theorem pyReplaceDS_two_slashes (J : Chars) (hds : hasDS J = false) :
    pyReplaceDS ('/' :: '/' :: J) = '/' :: J := by
  rw [pyReplaceDS_slash_slash, pyReplaceDS_of_hasDS_false J hds]

theorem pyReplaceDS_three_slashes (J : Chars) (hds : hasDS J = false)
    (hh : J.head? ≠ some '/') :
    pyReplaceDS ('/' :: '/' :: '/' :: J) = '/' :: '/' :: J := by
  rw [pyReplaceDS_slash_slash, pyReplaceDS_one_slash J hds hh]

theorem pyReplaceDS_four_slashes (J : Chars) (hds : hasDS J = false) :
    pyReplaceDS ('/' :: '/' :: '/' :: '/' :: J) = '/' :: '/' :: J := by
  rw [pyReplaceDS_slash_slash, pyReplaceDS_two_slashes J hds]

theorem upload_segments_facts (cs : List Chars) (b sb sf : Chars)
    (hcs : ∀ p ∈ cs, p ≠ [] ∧ noSlash p = true)
    (hbne : b ≠ []) (hbns : noSlash b = true)
    (hsbne : sb ≠ []) (hsbns : noSlash sb = true) (hsfns : noSlash sf = true) :
    hasDS (joinSeg (cs ++ [b])) = false ∧
    (joinSeg (cs ++ [b])).head? ≠ some '/' ∧
    hasDS (joinSeg (cs ++ [b, sb, sf])) = false ∧
    (joinSeg (cs ++ [b, sb, sf])).head? ≠ some '/' ∧
    joinSeg (cs ++ [b]) ++ '/' :: (sb ++ '/' :: sf) = joinSeg (cs ++ [b, sb, sf]) := by
  have hg1 : goodPieces (cs ++ [b]) = true :=
    goodPieces_append cs [b] hcs hbns (by simp)
  have hg3 : goodPieces [b, sb, sf] = true := by
    show ((!(b == []) && noSlash b) && ((!(sb == []) && noSlash sb) && noSlash sf)) = true
    simp [hbne, hbns, hsbne, hsbns, hsfns]
  have hg2 : goodPieces (cs ++ [b, sb, sf]) = true :=
    goodPieces_append cs [b, sb, sf] hcs hg3 (by simp)
  refine ⟨joinSeg_hasDS_false _ hg1, joinSeg_head_ne_slash _ hg1,
    joinSeg_hasDS_false _ hg2, joinSeg_head_ne_slash _ hg2, ?_⟩
  have h2 : joinSeg [sb, sf] = sb ++ '/' :: sf := rfl
  rw [← h2, (joinSeg_append (cs ++ [b]) [sb, sf] (by simp) (by simp)).symm,
    List.append_assoc]
  rfl

theorem dropbox_path_hasDS_false (loc : Chars) (row : Nat) (filename : Chars)
    (hcne : compsOf loc ≠ []) : hasDS (dropbox_path loc row filename) = false := by
  have hall : ∀ p ∈ compsOf loc, p ≠ [] ∧ p ≠ ['.'] ∧ noSlash p = true :=
    fun p hp => compsOf_facts loc p hp
  obtain ⟨nm, hnm, hnmem⟩ : ∃ a, (compsOf loc).getLast? = some a ∧ a ∈ compsOf loc := by
    cases hx : compsOf loc with
    | nil => exact absurd hx hcne
    | cons c0 cs0 => exact getLast?_exists c0 cs0
  have hname : nameOf loc = nm := by rw [nameOf, hnm]; rfl
  obtain ⟨hnm_ne, -, hnm_ns⟩ := hall nm hnmem
  have hb_ns : noSlash (excel_base loc) = true := sanitizeC_noSlash _
  have hb_ne : excel_base loc ≠ [] := by
    rw [excel_base, hname]
    intro hx
    apply stemOf_ne_nil nm hnm_ne
    have hlen := sanitizeC_length (stemOf nm)
    rw [hx] at hlen
    simp only [List.length_nil] at hlen
    exact List.length_eq_zero.mp hlen.symm
  have hsb_ns : noSlash (sanitizeC (pyStr row)) = true := sanitizeC_noSlash _
  have hsb_ne : sanitizeC (pyStr row) ≠ [] := by
    intro hx
    apply pyStr_ne_nil row
    have hlen := sanitizeC_length (pyStr row)
    rw [hx] at hlen
    simp only [List.length_nil] at hlen
    exact List.length_eq_zero.mp hlen.symm
  have hsf_ns : noSlash (sanitizeC filename) = true := sanitizeC_noSlash _
  show hasDS (pyReplaceDS (root_upload_folder loc ++
    '/' :: (sanitizeC (pyStr row) ++ '/' :: sanitizeC filename))) = false
  cases hdl : (compsOf loc).dropLast with
  | nil =>
      obtain ⟨hJds, hJh, hKds, hKh, hJK⟩ :=
        upload_segments_facts [] (excel_base loc) (sanitizeC (pyStr row))
          (sanitizeC filename) (by simp) hb_ne hb_ns hsb_ne hsb_ns hsf_ns
      simp only [List.nil_append] at hJds hJh hKds hKh hJK
      have hJb : joinSeg [excel_base loc] = excel_base loc := rfl
      rw [hJb] at hJds hJh hJK
      have hraw : excel_parent_raw loc =
          (if posixRoot loc = [] then ['.'] else posixRoot loc) := by
        rw [excel_parent_raw, hdl]
        rfl
      rcases posixRoot_cases loc with hr | hr | hr
      · have hpar : excel_parent loc = [] := by
          rw [excel_parent, hraw, hr]; decide
        have hroot : root_upload_folder loc = '/' :: excel_base loc := by
          rw [root_upload_folder, hpar, List.nil_append]
          exact pyReplaceDS_two_slashes _ (noSlash_hasDS _ hb_ns)
        rw [hroot, List.cons_append, hJK]
        exact hasDS_pyReplaceDS_slash _ hKds hKh
      · have hpar : excel_parent loc = [] := by
          rw [excel_parent, hraw, hr]; decide
        have hroot : root_upload_folder loc = '/' :: excel_base loc := by
          rw [root_upload_folder, hpar, List.nil_append]
          exact pyReplaceDS_two_slashes _ (noSlash_hasDS _ hb_ns)
        rw [hroot, List.cons_append, hJK]
        exact hasDS_pyReplaceDS_slash _ hKds hKh
      · have hpar : excel_parent loc = ['/', '/'] := by
          rw [excel_parent, hraw, hr]; decide
        have hroot : root_upload_folder loc = '/' :: '/' :: excel_base loc := by
          rw [root_upload_folder, hpar]
          exact pyReplaceDS_four_slashes _ (noSlash_hasDS _ hb_ns)
        rw [hroot, List.cons_append, List.cons_append, hJK]
        exact hasDS_pyReplaceDS_slash_slash _ hKds hKh
  | cons c1 cs1 =>
      have hcs : ∀ p ∈ c1 :: cs1, p ≠ [] ∧ p ≠ ['.'] ∧ noSlash p = true := by
        intro p hp
        exact hall p (mem_of_mem_dropLast (compsOf loc) p (by rw [hdl]; exact hp))
      obtain ⟨hJds, hJh, hKds, hKh, hJK⟩ :=
        upload_segments_facts (c1 :: cs1) (excel_base loc) (sanitizeC (pyStr row))
          (sanitizeC filename) (fun p hp => ⟨(hcs p hp).1, (hcs p hp).2.2⟩)
          hb_ne hb_ns hsb_ne hsb_ns hsf_ns
      obtain ⟨hjs_ne, hjs_nd, hjs_nsl⟩ := joinSeg_not_special (c1 :: cs1) (by simp) hcs
      have hraw : excel_parent_raw loc = posixRoot loc ++ joinSeg (c1 :: cs1) := by
        rw [excel_parent_raw, hdl]
        rfl
      have hJsplit : joinSeg ((c1 :: cs1) ++ [excel_base loc]) =
          joinSeg (c1 :: cs1) ++ '/' :: excel_base loc := by
        rw [joinSeg_append (c1 :: cs1) [excel_base loc] (by simp) (by simp)]
        rfl
      rcases posixRoot_cases loc with hr | hr | hr
      · have hpar : excel_parent loc = joinSeg (c1 :: cs1) := by
          rw [excel_parent, hraw, hr, List.nil_append]
          rw [if_neg ?hcond]
          case hcond =>
            rintro (h | h | h)
            · exact hjs_nd h
            · exact hjs_ne h
            · exact hjs_nsl h
        have hroot : root_upload_folder loc =
            '/' :: joinSeg ((c1 :: cs1) ++ [excel_base loc]) := by
          rw [root_upload_folder, hpar, ← hJsplit]
          exact pyReplaceDS_one_slash _ hJds hJh
        rw [hroot, List.cons_append, hJK]
        exact hasDS_pyReplaceDS_slash _ hKds hKh
      · have hpar : excel_parent loc = '/' :: joinSeg (c1 :: cs1) := by
          rw [excel_parent, hraw, hr, List.singleton_append]
          rw [if_neg ?hcond2]
          case hcond2 =>
            rintro (h | h | h)
            · rw [List.cons.injEq] at h
              exact absurd h.1 (by decide)
            · simp at h
            · rw [List.cons.injEq] at h
              exact hjs_ne h.2
        have hroot : root_upload_folder loc =
            '/' :: joinSeg ((c1 :: cs1) ++ [excel_base loc]) := by
          rw [root_upload_folder, hpar, List.cons_append, ← hJsplit]
          exact pyReplaceDS_two_slashes _ hJds
        rw [hroot, List.cons_append, hJK]
        exact hasDS_pyReplaceDS_slash _ hKds hKh
      · have hpar : excel_parent loc = '/' :: '/' :: joinSeg (c1 :: cs1) := by
          rw [excel_parent, hraw, hr, List.cons_append, List.singleton_append]
          rw [if_neg ?hcond3]
          case hcond3 =>
            rintro (h | h | h)
            · rw [List.cons.injEq] at h
              exact absurd h.1 (by decide)
            · simp at h
            · rw [List.cons.injEq] at h
              simp at h
        have hroot : root_upload_folder loc =
            '/' :: '/' :: joinSeg ((c1 :: cs1) ++ [excel_base loc]) := by
          rw [root_upload_folder, hpar, List.cons_append, List.cons_append, ← hJsplit]
          exact pyReplaceDS_three_slashes _ hJds hJh
        rw [hroot, List.cons_append, List.cons_append, hJK]
        exact hasDS_pyReplaceDS_slash_slash _ hKds hKh

theorem compsOf_ne_nil_of_excel (s : String) (h : is_excel_name s = true) :
    compsOf s.toList ≠ [] := by
  rw [is_excel_name, Bool.or_eq_true] at h
  have hlast : ∃ a, s.toList.getLast? = some a ∧
      (Char.toLower a = 's' ∨ Char.toLower a = 'x') := by
    rcases h with h | h
    · rw [List.isSuffixOf_iff_suffix] at h
      obtain ⟨t, ht⟩ := h
      have hs : (s.toList.map Char.toLower).getLast? = some 's' := by
        rw [← ht, List.getLast?_append_of_ne_nil t (by decide)]
        rfl
      rw [List.getLast?_map, Option.map_eq_some'] at hs
      obtain ⟨a, ha1, ha2⟩ := hs
      exact ⟨a, ha1, Or.inl ha2⟩
    · rw [List.isSuffixOf_iff_suffix] at h
      obtain ⟨t, ht⟩ := h
      have hs : (s.toList.map Char.toLower).getLast? = some 'x' := by
        rw [← ht, List.getLast?_append_of_ne_nil t (by decide)]
        rfl
      rw [List.getLast?_map, Option.map_eq_some'] at hs
      obtain ⟨a, ha1, ha2⟩ := hs
      exact ⟨a, ha1, Or.inr ha2⟩
  obtain ⟨a, ha, hlow⟩ := hlast
  apply compsOf_ne_nil_of_getLast s.toList a ha
  · intro hx
    subst hx
    rcases hlow with h' | h' <;> exact absurd h' (by decide)
  · intro hx
    subst hx
    rcases hlow with h' | h' <;> exact absurd h' (by decide)

/-- C4: for every spreadsheet location (a path accepted by the listing's
spreadsheet-extension test), row number and filename, the destination path
built by the upload handler contains no doubled separator `"//"`, and the
construction is deterministic (equal inputs give an identical path). -/
theorem dropbox_path_no_double_separator (loc : String) (row : Nat) (filename : String)
    (h : is_excel_name loc = true) :
    hasDS (dropbox_path loc.toList row filename.toList) = false ∧
    dropbox_path loc.toList row filename.toList =
      dropbox_path loc.toList row filename.toList :=
  ⟨dropbox_path_hasDS_false _ _ _ (compsOf_ne_nil_of_excel loc h), rfl⟩

/-- Witness for C4 at the concrete location `/Stock/Models.xlsx`, row 5,
filename `X_1.jpg`. -/
theorem dropbox_path_no_double_separator_witness :
    is_excel_name "/Stock/Models.xlsx" = true ∧
    (hasDS (dropbox_path "/Stock/Models.xlsx".toList 5 "X_1.jpg".toList) = false ∧
     dropbox_path "/Stock/Models.xlsx".toList 5 "X_1.jpg".toList =
       dropbox_path "/Stock/Models.xlsx".toList 5 "X_1.jpg".toList) :=
  ⟨by decide, dropbox_path_no_double_separator "/Stock/Models.xlsx" 5 "X_1.jpg" (by decide)⟩

/-! ## Python dict as an association list

Python dict assignment `m[k] = v` updates an existing key in place (keeping
its position) or appends a new one; lookup scans for the key. -/

abbrev PyDict (α : Type) := List (String × α)

def lookupDict {α : Type} : PyDict α → String → Option α
  | [], _ => none
  | (k, v) :: rest, d => if k == d then some v else lookupDict rest d

def insertDict {α : Type} : PyDict α → String → α → PyDict α
  | [], k, v => [(k, v)]
  | (k', v') :: rest, k, v =>
      if k' == k then (k', v) :: rest else (k', v') :: insertDict rest k v

theorem lookupDict_insertDict {α : Type} (m : PyDict α) (k : String) (v : α)
    (d : String) :
    lookupDict (insertDict m k v) d = if k == d then some v else lookupDict m d := by
  induction m with
  | nil => rfl
  | cons kv rest ih =>
      obtain ⟨k', v'⟩ := kv
      by_cases hk : k' == k
      · have hk' : k' = k := by simpa using hk
        subst hk'
        simp only [insertDict, if_pos hk]
        by_cases hd : k' == d
        · simp [lookupDict, hd]
        · simp [lookupDict, hd]
      · simp only [insertDict, if_neg hk]
        by_cases hd : k' == d
        · have hd' : k' = d := by simpa using hd
          subst hd'
          have hkd : ¬(k == k') := by
            intro hx
            exact hk (by simpa using (by simpa using hx : k = k').symm)
          simp [lookupDict, hkd, hd]
        · simp [lookupDict, hd, ih]

theorem filter_key_cons {α : Type} (kv : String × α) (l : List (String × α)) (d : String) :
    (kv :: l).filter (fun kv' => kv'.1 == d) =
      if kv.1 == d then kv :: l.filter (fun kv' => kv'.1 == d)
      else l.filter (fun kv' => kv'.1 == d) := by
  by_cases h : kv.1 == d
  · simp [List.filter_cons, h]
  · simp [List.filter_cons, h]

theorem lookupDict_foldl_insert {α : Type} (l : List (String × α)) (init : PyDict α)
    (d : String) :
    lookupDict (l.foldl (fun m kv => insertDict m kv.1 kv.2) init) d =
      (match (l.filter (fun kv => kv.1 == d)).getLast? with
       | some kv => some kv.2
       | none => lookupDict init d) := by
  induction l generalizing init with
  | nil => rfl
  | cons kv l ih =>
      rw [List.foldl_cons, ih, filter_key_cons]
      by_cases hk : kv.1 == d
      · rw [if_pos hk]
        cases hf : (l.filter (fun kv => kv.1 == d)).getLast? with
        | some kv' =>
            have hne : l.filter (fun kv => kv.1 == d) ≠ [] := by
              intro hx
              rw [hx] at hf
              simp at hf
            rw [getLast?_cons_of_ne kv _ hne, hf]
        | none =>
            have hnil : l.filter (fun kv => kv.1 == d) = [] := by
              cases hx : l.filter (fun kv => kv.1 == d) with
              | nil => rfl
              | cons y ys =>
                  rw [hx] at hf
                  obtain ⟨a, h1, h2⟩ := getLast?_exists y ys
                  rw [h1] at hf
                  simp at hf
            rw [hnil]
            simp only [List.getLast?_singleton]
            rw [lookupDict_insertDict, if_pos hk]
      · rw [if_neg hk]
        cases hf : (l.filter (fun kv => kv.1 == d)).getLast? with
        | some kv' => rfl
        | none =>
            show lookupDict (insertDict init kv.1 kv.2) d = lookupDict init d
            rw [lookupDict_insertDict, if_neg hk]

/-! ## Spreadsheet catalog loader (src/app.py lines 101-121)

A decoded workbook is a dict of sheet name to a table.  A table row is read
through its named columns (`row.items()` yields `(column, value)` pairs in
column order; values are taken in their display-string form). -/

abbrev Row := List (String × String)

structure SheetDF where
  columns : List String
  rows : List Row
deriving DecidableEq

structure ModelRowEntry where
  model : String
  row : Nat
deriving DecidableEq

/-- Python `sep.join`. -/
def joinSep (sep : String) : List String → String
  | [] => ""
  | [x] => x
  | x :: xs => x ++ sep ++ joinSep sep xs

/-- `row[k]` in display-string form (`str(row[k])`). -/
def rowLookup (r : Row) (k : String) : String :=
  (((r.find? (fun kv => kv.1 == k)).map (fun kv => kv.2)).getD "")

/-- `" | ".join(f"{k}: {v}" for k, v in row.items() if k != "Model")`. -/
def rowInfo (r : Row) : String :=
  joinSep " | " ((r.filter (fun kv => kv.1 != "Model")).map
    (fun kv => kv.1 ++ ": " ++ kv.2))

/-- `display = f"{model} ({info})" if info else model`. -/
def displayOf (r : Row) : String :=
  if rowInfo r == "" then rowLookup r "Model"
  else rowLookup r "Model" ++ " (" ++ rowInfo r ++ ")"

/-- The `(display, entry)` pairs contributed by one sheet: for a sheet with a
`"Model"` column, one pair per row, with `row = i + 2` for the `i`-th row
(0-based position plus header offset). -/
def sheetPairs (df : SheetDF) : List (String × ModelRowEntry) :=
  if "Model" ∈ df.columns then
    df.rows.enum.map (fun ir => (displayOf ir.2, ⟨rowLookup ir.2 "Model", ir.1 + 2⟩))
  else []

/-- All `(display, entry)` pairs of the workbook, in sheet-then-row order. -/
def catalogPairs (sheets : List (String × SheetDF)) : List (String × ModelRowEntry) :=
  (sheets.map (fun s => sheetPairs s.2)).flatten

/-- `model_options`: the selectable display labels, in generation order. -/
def model_options (sheets : List (String × SheetDF)) : List String :=
  (catalogPairs sheets).map (fun kv => kv.1)

/-- `model_map`: the dict from display label to `{model, row}` built by the
loading loop (`model_map[display] = ...`, last assignment wins). -/
def model_map (sheets : List (String × SheetDF)) : PyDict ModelRowEntry :=
  (catalogPairs sheets).foldl (fun m kv => insertDict m kv.1 kv.2) []

/-- The C3 example sheet: a `"Model"` column with rows
`[("A", Color: "Red"), ("B", -)]`. -/
def sheetC3 : SheetDF :=
  ⟨["Model", "Color"], [[("Model", "A"), ("Color", "Red")], [("Model", "B")]]⟩

/-- C3: for the decoded spreadsheet with `"Model"` rows
`[("A", {Color: "Red"}), ("B", {})]`, the catalog yields display labels
`"A (Color: Red)"` and `"B"`, mapped to row numbers 2 and 3 (0-based row
position plus 2). -/
theorem catalog_labels_and_rows :
    model_options [("Sheet1", sheetC3)] = ["A (Color: Red)", "B"] ∧
    lookupDict (model_map [("Sheet1", sheetC3)]) "A (Color: Red)" =
      some ⟨"A", 2⟩ ∧
    lookupDict (model_map [("Sheet1", sheetC3)]) "B" = some ⟨"B", 3⟩ := by
  refine ⟨?_, ?_, ?_⟩ <;> rfl

/-- C8: for every decoded workbook and display label, looking the label up in
`model_map` yields the entry of the last generated pair carrying that label:
a later row with the same display label overwrites an earlier one. -/
theorem model_map_last_write_wins (sheets : List (String × SheetDF)) (d : String) :
    lookupDict (model_map sheets) d =
      (((catalogPairs sheets).filter (fun kv => kv.1 == d)).getLast?).map
        (fun kv => kv.2) := by
  rw [model_map, lookupDict_foldl_insert]
  cases ((catalogPairs sheets).filter (fun kv => kv.1 == d)).getLast? with
  | some kv => rfl
  | none => rfl

/-- C10: every display label appended to `model_options` is present as a key
of `model_map`, so the selection lookup never fails. -/
theorem model_options_mem_model_map (sheets : List (String × SheetDF)) (d : String)
    (h : d ∈ model_options sheets) :
    ∃ e, lookupDict (model_map sheets) d = some e := by
  rw [model_map, lookupDict_foldl_insert]
  obtain ⟨kv, hkv, hd⟩ : ∃ kv ∈ catalogPairs sheets, kv.1 = d := by
    rw [model_options] at h
    simpa using h
  subst hd
  have hmem : kv ∈ (catalogPairs sheets).filter (fun kv' => kv'.1 == kv.1) :=
    List.mem_filter.mpr ⟨hkv, by simp⟩
  have hne : (catalogPairs sheets).filter (fun kv' => kv'.1 == kv.1) ≠ [] :=
    List.ne_nil_of_mem hmem
  cases hx : (catalogPairs sheets).filter (fun kv' => kv'.1 == kv.1) with
  | nil => exact absurd hx hne
  | cons y ys =>
      obtain ⟨a, h1, h2⟩ := getLast?_exists y ys
      rw [h1]
      exact ⟨a.2, rfl⟩

/-- Witness for C10: the label `"A (Color: Red)"` of the C3 example sheet is
in the options list and is found in the map. -/
theorem model_options_mem_model_map_witness :
    "A (Color: Red)" ∈ model_options [("Sheet1", sheetC3)] ∧
    ∃ e, lookupDict (model_map [("Sheet1", sheetC3)]) "A (Color: Red)" = some e :=
  ⟨by decide, model_options_mem_model_map [("Sheet1", sheetC3)] "A (Color: Red)"
    (by decide)⟩

/-! ## Capture Session (src/app.py lines 88-151)

`st.session_state.images_by_model` maps a display label to the ordered list
of captured images; the capture handler appends a new image whose filename
carries `current count for the label + 1`, and the delete button pops by
index without renumbering. -/

structure CapturedImage where
  filename : String
  data : List Nat
  row : Nat
  model : String
deriving DecidableEq

abbrev ImagesByModel := PyDict (List CapturedImage)

/-- The capture handler (src/app.py lines 126-137):
`filename = sanitize_filename(f"{selected_model}_{len(images_by_model.get(selected_display, [])) + 1}.jpg")`,
then append the image record under the selected display label. -/
def captureHandler (session : ImagesByModel) (selected_display selected_model : String)
    (selected_row : Nat) (data : List Nat) : ImagesByModel :=
  let cur := (lookupDict session selected_display).getD []
  let filename := sanitize_filename
    (selected_model ++ "_" ++ String.mk (pyStr (cur.length + 1)) ++ ".jpg")
  insertDict session selected_display
    (cur ++ [{ filename := filename, data := data, row := selected_row,
               model := selected_model }])

/-- The delete-button handler (src/app.py lines 149-151):
`st.session_state.images_by_model[key].pop(i)`. -/
def deleteHandler (session : ImagesByModel) (key : String) (i : Nat) : ImagesByModel :=
  match lookupDict session key with
  | some imgs => insertDict session key (imgs.eraseIdx i)
  | none => session

/-- The image record produced by the `k`-th capture for a label (count was
`k - 1` at capture time). -/
def nthCapture (m : String) (r k : Nat) (b : List Nat) : CapturedImage :=
  { filename := sanitize_filename (m ++ "_" ++ String.mk (pyStr k) ++ ".jpg"),
    data := b, row := r, model := m }

theorem toList_append (a b : String) : (a ++ b).toList = a.toList ++ b.toList := by
  show (a ++ b).data = a.data ++ b.data
  exact String.data_append a b

theorem nthCapture_filename_suffix (m : String) (r : Nat) (b : List Nat) (k : Nat)
    (tail : String) (htail : (String.mk (pyStr k) ++ ".jpg").toList = tail.toList)
    (hsan : sanitizeC ("_" ++ tail).toList = ("_" ++ tail).toList) :
    ("_" ++ tail).toList <:+ (nthCapture m r k b).filename.toList := by
  show ("_" ++ tail).toList <:+
    (sanitize_filename (m ++ "_" ++ String.mk (pyStr k) ++ ".jpg")).toList
  have heq : (m ++ "_" ++ String.mk (pyStr k) ++ ".jpg").toList =
      m.toList ++ ("_" ++ tail).toList := by
    rw [toList_append, toList_append, toList_append, toList_append, ← htail,
      toList_append, List.append_assoc, List.append_assoc]
  show ("_" ++ tail).toList <:+
    sanitizeC ((m ++ "_" ++ String.mk (pyStr k) ++ ".jpg").toList)
  rw [heq, sanitizeC_append, hsan]
  exact List.suffix_append _ _

theorem deleteHandler_of_lookup (session : ImagesByModel) (key : String)
    (imgs : List CapturedImage) (h : lookupDict session key = some imgs) (i : Nat) :
    lookupDict (deleteHandler session key i) key = some (imgs.eraseIdx i) := by
  unfold deleteHandler
  rw [h]
  show lookupDict (insertDict session key (imgs.eraseIdx i)) key = some (imgs.eraseIdx i)
  rw [lookupDict_insertDict]
  simp

/-- C6: three captures under one fresh display label produce filenames ending
in `_1.jpg`, `_2.jpg`, `_3.jpg` in capture order (sequence number = current
count for the label + 1), and deleting the first image by index leaves the
remaining two image records — filenames included — unchanged. -/
theorem capture_numbering_and_delete (session : ImagesByModel) (d m : String)
    (r : Nat) (b1 b2 b3 : List Nat) (h : lookupDict session d = none) :
    lookupDict
        (captureHandler (captureHandler (captureHandler session d m r b1) d m r b2)
          d m r b3) d =
      some [nthCapture m r 1 b1, nthCapture m r 2 b2, nthCapture m r 3 b3] ∧
    "_1.jpg".toList <:+ (nthCapture m r 1 b1).filename.toList ∧
    "_2.jpg".toList <:+ (nthCapture m r 2 b2).filename.toList ∧
    "_3.jpg".toList <:+ (nthCapture m r 3 b3).filename.toList ∧
    lookupDict
        (deleteHandler
          (captureHandler (captureHandler (captureHandler session d m r b1) d m r b2)
            d m r b3) d 0) d =
      some [nthCapture m r 2 b2, nthCapture m r 3 b3] := by
  have h1 : captureHandler session d m r b1 =
      insertDict session d [nthCapture m r 1 b1] := by
    unfold captureHandler
    rw [h]
    rfl
  have hl1 : lookupDict (insertDict session d [nthCapture m r 1 b1]) d =
      some [nthCapture m r 1 b1] := by
    rw [lookupDict_insertDict]
    simp
  have h2 : captureHandler (insertDict session d [nthCapture m r 1 b1]) d m r b2 =
      insertDict (insertDict session d [nthCapture m r 1 b1]) d
        [nthCapture m r 1 b1, nthCapture m r 2 b2] := by
    unfold captureHandler
    rw [hl1]
    rfl
  have hl2 : lookupDict (insertDict (insertDict session d [nthCapture m r 1 b1]) d
      [nthCapture m r 1 b1, nthCapture m r 2 b2]) d =
      some [nthCapture m r 1 b1, nthCapture m r 2 b2] := by
    rw [lookupDict_insertDict]
    simp
  have h3 : captureHandler (insertDict (insertDict session d [nthCapture m r 1 b1]) d
      [nthCapture m r 1 b1, nthCapture m r 2 b2]) d m r b3 =
      insertDict (insertDict (insertDict session d [nthCapture m r 1 b1]) d
        [nthCapture m r 1 b1, nthCapture m r 2 b2]) d
        [nthCapture m r 1 b1, nthCapture m r 2 b2, nthCapture m r 3 b3] := by
    unfold captureHandler
    rw [hl2]
    rfl
  rw [h1, h2, h3]
  refine ⟨?_, ?_, ?_, ?_, ?_⟩
  · rw [lookupDict_insertDict]
    simp
  · exact nthCapture_filename_suffix m r b1 1 "1.jpg" rfl (by decide)
  · exact nthCapture_filename_suffix m r b2 2 "2.jpg" rfl (by decide)
  · exact nthCapture_filename_suffix m r b3 3 "3.jpg" rfl (by decide)
  · have hl3 : lookupDict (insertDict (insertDict (insertDict session d
        [nthCapture m r 1 b1]) d [nthCapture m r 1 b1, nthCapture m r 2 b2]) d
        [nthCapture m r 1 b1, nthCapture m r 2 b2, nthCapture m r 3 b3]) d =
        some [nthCapture m r 1 b1, nthCapture m r 2 b2, nthCapture m r 3 b3] := by
      rw [lookupDict_insertDict]
      simp
    exact deleteHandler_of_lookup _ d _ hl3 0

/-- Witness for C6: concrete captures of label `"A"`, model `"M"`, row 2. -/
theorem capture_numbering_and_delete_witness :
    lookupDict
        (captureHandler (captureHandler (captureHandler [] "A" "M" 2 [0]) "A" "M" 2 [1])
          "A" "M" 2 [2]) "A" =
      some [nthCapture "M" 2 1 [0], nthCapture "M" 2 2 [1], nthCapture "M" 2 3 [2]] ∧
    "_1.jpg".toList <:+ (nthCapture "M" 2 1 [0]).filename.toList ∧
    "_2.jpg".toList <:+ (nthCapture "M" 2 2 [1]).filename.toList ∧
    "_3.jpg".toList <:+ (nthCapture "M" 2 3 [2]).filename.toList ∧
    lookupDict
        (deleteHandler
          (captureHandler (captureHandler (captureHandler [] "A" "M" 2 [0]) "A" "M" 2 [1])
            "A" "M" 2 [2]) "A" 0) "A" =
      some [nthCapture "M" 2 2 [1], nthCapture "M" 2 3 [2]] :=
  capture_numbering_and_delete [] "A" "M" 2 [0] [1] [2] rfl

/-! ## Dropbox upload (src/app.py lines 74-86 and 153-183)

Effects are an explicit environment: whether each temp-file write raises,
whether reading a local file raises, and whether the remote `files_upload`
call to a given destination raises (`none` means success).  Messages shown on
the Streamlit surface are collected in order. -/

inductive PyExn
  | apiError (msg : String)
  | fileNotFound
  | otherExn (msg : String)
deriving DecidableEq

/-- `str(e)` for a modelled exception. -/
def pyExnStr : PyExn → String
  | .apiError msg => msg
  | .fileNotFound => "file not found"
  | .otherExn msg => msg

inductive Msg
  | info (s : String)
  | write (s : String)
  | success (s : String)
  | error (s : String)
  | balloons
deriving DecidableEq

structure UploadEnv where
  tmpWrite : Nat → Option PyExn
  readFile : String → Option PyExn
  uploadCall : String → Option PyExn

/-- The try-block body of `upload_file_to_dropbox`: open and read the local
file, then call `files_upload`; either step may raise. -/
def uploadBody (env : UploadEnv) (local_path dropbox_dest : String) :
    Except PyExn (List Msg) :=
  match env.readFile local_path with
  | some e => Except.error e
  | none =>
      match env.uploadCall dropbox_dest with
      | some e => Except.error e
      | none => Except.ok [Msg.success ("✅ Uploaded to `" ++ dropbox_dest ++ "`")]

/-- `upload_file_to_dropbox` (src/app.py lines 74-86): the body wrapped in the
three handlers `except ApiError`, `except FileNotFoundError`,
`except Exception`, each reporting a categorized message and returning
normally. -/
def upload_file_to_dropbox (env : UploadEnv) (local_path dropbox_dest : String) :
    Except PyExn (List Msg) :=
  match uploadBody env local_path dropbox_dest with
  | Except.ok ms => Except.ok ms
  | Except.error (PyExn.apiError msg) =>
      Except.ok [Msg.error ("❌ Dropbox API error: " ++ msg)]
  | Except.error PyExn.fileNotFound =>
      Except.ok [Msg.error ("❌ Local file not found: " ++ local_path)]
  | Except.error (PyExn.otherExn msg) =>
      Except.ok [Msg.error ("❌ Unexpected upload error: " ++ msg)]

theorem upload_file_to_dropbox_isOk (env : UploadEnv) (local_path dropbox_dest : String) :
    ∃ ms, upload_file_to_dropbox env local_path dropbox_dest = Except.ok ms := by
  unfold upload_file_to_dropbox
  cases uploadBody env local_path dropbox_dest with
  | ok ms => exact ⟨ms, rfl⟩
  | error e =>
      cases e with
      | apiError msg => exact ⟨_, rfl⟩
      | fileNotFound => exact ⟨_, rfl⟩
      | otherExn msg => exact ⟨_, rfl⟩

/-- C9: `upload_file_to_dropbox` never propagates an exception: whatever the
file read and the remote upload call do (API error, missing local file, or
any other exception), it returns normally with a reported message. -/
theorem upload_file_never_raises (env : UploadEnv) (local_path dropbox_dest : String) :
    ∃ ms, upload_file_to_dropbox env local_path dropbox_dest = Except.ok ms := by
  unfold upload_file_to_dropbox
  cases uploadBody env local_path dropbox_dest with
  | ok ms => exact ⟨ms, rfl⟩
  | error e =>
      cases e with
      | apiError msg => exact ⟨_, rfl⟩
      | fileNotFound => exact ⟨_, rfl⟩
      | otherExn msg => exact ⟨_, rfl⟩

/-- The destination path of one image, from the precomputed root folder. -/
def imgDest (root : Chars) (img : CapturedImage) : String :=
  String.mk (img_dropbox_path root img.row img.filename.toList)

/-- `st.write(f"📤 Uploading to: {dropbox_path}")` (with backticks). -/
def uploadWriteMsg (root : Chars) (img : CapturedImage) : Msg :=
  Msg.write ("📤 Uploading to: `" ++ imgDest root img ++ "`")

/-- The temp path of the k-th staged image
(`tempfile.NamedTemporaryFile(delete=False, suffix=".jpg")`). -/
def tmpName (k : Nat) : String := "/tmp/capture" ++ String.mk (pyStr k) ++ ".jpg"

/-- The upload loop of the upload-all handler (src/app.py lines 167-177) over
the flattened image sequence: show the destination, stage the bytes to a temp
file (may raise), call `upload_file_to_dropbox`; an exception stops the loop
and propagates, otherwise the loop continues collecting messages. -/
def uploadLoop (env : UploadEnv) (root : Chars) :
    Nat → List CapturedImage → List Msg × Option PyExn
  | _, [] => ([], none)
  | k, img :: rest =>
      match env.tmpWrite k with
      | some e => ([uploadWriteMsg root img], some e)
      | none =>
          match upload_file_to_dropbox env (tmpName k) (imgDest root img) with
          | Except.error e => ([uploadWriteMsg root img], some e)
          | Except.ok ms =>
              (uploadWriteMsg root img :: (ms ++ (uploadLoop env root (k + 1) rest).1),
               (uploadLoop env root (k + 1) rest).2)

/-- The images of the session in iteration order
(`for key, images in images_by_model.items(): for img in images`). -/
def sessionImages (images_by_model : ImagesByModel) : List CapturedImage :=
  (images_by_model.map (fun kv => kv.2)).flatten

/-- The upload-all button handler (src/app.py lines 155-183): run the loop
over every queued image; if no exception escaped the loop, clear the session
and show the success banner, otherwise report the exception and leave the
session untouched. -/
def upload_all_handler (env : UploadEnv) (selected_excel : String)
    (images_by_model : ImagesByModel) : List Msg × ImagesByModel :=
  match uploadLoop env (root_upload_folder selected_excel.toList) 0
      (sessionImages images_by_model) with
  | (msgs, none) =>
      (Msg.info "🔄 Uploading..." :: (msgs ++
        [Msg.success "🎉 All images uploaded successfully.", Msg.balloons]), [])
  | (msgs, some e) =>
      (Msg.info "🔄 Uploading..." :: (msgs ++
        [Msg.error ("❌ Upload error: " ++ pyExnStr e)]), images_by_model)

/-- The per-image reports of a complete loop run: for each image its
destination line followed by the messages of its own upload attempt
(success, or a categorized error when the remote call failed). -/
def loopReport (env : UploadEnv) (root : Chars) : Nat → List CapturedImage → List Msg
  | _, [] => []
  | k, img :: rest =>
      uploadWriteMsg root img ::
        ((match upload_file_to_dropbox env (tmpName k) (imgDest root img) with
          | Except.ok ms => ms
          | Except.error _ => []) ++ loopReport env root (k + 1) rest)

theorem uploadLoop_no_tmp_fail (env : UploadEnv) (root : Chars)
    (htmp : ∀ k, env.tmpWrite k = none) (imgs : List CapturedImage) :
    ∀ k, uploadLoop env root k imgs = (loopReport env root k imgs, none) := by
  induction imgs with
  | nil => intro k; rfl
  | cons img rest ih =>
      intro k
      obtain ⟨ms, hms⟩ := upload_file_to_dropbox_isOk env (tmpName k) (imgDest root img)
      show (match env.tmpWrite k with
        | some e => ([uploadWriteMsg root img], some e)
        | none =>
            match upload_file_to_dropbox env (tmpName k) (imgDest root img) with
            | Except.error e => ([uploadWriteMsg root img], some e)
            | Except.ok ms =>
                (uploadWriteMsg root img :: (ms ++ (uploadLoop env root (k + 1) rest).1),
                 (uploadLoop env root (k + 1) rest).2)) =
        (loopReport env root k (img :: rest), none)
      rw [htmp k, hms, ih (k + 1)]
      have hlr : loopReport env root k (img :: rest) =
          uploadWriteMsg root img ::
            ((match upload_file_to_dropbox env (tmpName k) (imgDest root img) with
              | Except.ok ms => ms
              | Except.error _ => []) ++ loopReport env root (k + 1) rest) := rfl
      rw [hlr, hms]

/-- C1 (amended): individual upload failures are swallowed inside
`upload_file_to_dropbox`, so whenever the loop's temp-file staging raises no
exception, the upload-all handler clears the Capture Session and shows the
success banner even if some uploads failed; each image's report (success or
categorized error) is shown in order, but failed images are not retained. -/
theorem upload_all_clears_session_despite_failures (env : UploadEnv)
    (selected_excel : String) (images_by_model : ImagesByModel)
    (htmp : ∀ k, env.tmpWrite k = none) :
    upload_all_handler env selected_excel images_by_model =
      (Msg.info "🔄 Uploading..." ::
        (loopReport env (root_upload_folder selected_excel.toList) 0
            (sessionImages images_by_model) ++
          [Msg.success "🎉 All images uploaded successfully.", Msg.balloons]), []) := by
  unfold upload_all_handler
  rw [uploadLoop_no_tmp_fail env (root_upload_folder selected_excel.toList) htmp
    (sessionImages images_by_model) 0]

/-- The three-image session used to exercise a partial upload failure. -/
def sessC1 : ImagesByModel :=
  [("M (Color: Red)",
    [⟨"M_1.jpg", [1], 5, "M"⟩, ⟨"M_2.jpg", [2], 5, "M"⟩, ⟨"M_3.jpg", [3], 5, "M"⟩])]

/-- An environment where staging and reads succeed but the remote upload call
raises an API error exactly for the second image's destination. -/
def envC1 : UploadEnv where
  tmpWrite := fun _ => none
  readFile := fun _ => none
  uploadCall := fun d =>
    if d = "/Stock/Models/5/M_2.jpg" then some (PyExn.apiError "boom") else none

/-- C1 counterexample: with three queued images and the second upload raising
an API error, the handler reports the other two as succeeded and the failed
one with an error message, yet the Capture Session is cleared — it does not
retain the failed image's data, contrary to the claim. -/
theorem upload_all_partial_failure_counterexample :
    (upload_all_handler envC1 "/Stock/Models.xlsx" sessC1).2 = [] ∧
    (upload_all_handler envC1 "/Stock/Models.xlsx" sessC1).2 ≠
      [("M (Color: Red)", [⟨"M_2.jpg", [2], 5, "M"⟩])] ∧
    (upload_all_handler envC1 "/Stock/Models.xlsx" sessC1).1 =
      [Msg.info "🔄 Uploading...",
       Msg.write "📤 Uploading to: `/Stock/Models/5/M_1.jpg`",
       Msg.success "✅ Uploaded to `/Stock/Models/5/M_1.jpg`",
       Msg.write "📤 Uploading to: `/Stock/Models/5/M_2.jpg`",
       Msg.error "❌ Dropbox API error: boom",
       Msg.write "📤 Uploading to: `/Stock/Models/5/M_3.jpg`",
       Msg.success "✅ Uploaded to `/Stock/Models/5/M_3.jpg`",
       Msg.success "🎉 All images uploaded successfully.", Msg.balloons] := by
  refine ⟨rfl, by decide, rfl⟩

/-- Witness for the amended C1 at the concrete failing environment. -/
theorem upload_all_clears_session_despite_failures_witness :
    upload_all_handler envC1 "/Stock/Models.xlsx" sessC1 =
      (Msg.info "🔄 Uploading..." ::
        (loopReport envC1 (root_upload_folder "/Stock/Models.xlsx".toList) 0
            (sessionImages sessC1) ++
          [Msg.success "🎉 All images uploaded successfully.", Msg.balloons]), []) :=
  upload_all_clears_session_despite_failures envC1 "/Stock/Models.xlsx" sessC1
    (fun _ => rfl)

/-! ## Dropbox listing (src/app.py lines 43-58)

`files_list_folder` is an oracle from a folder path to either its entries or
a transport error.  The `while queue` loop is fuel-indexed; each iteration
pops the queue head, enqueues subfolder paths and collects the display paths
of spreadsheet files. -/

inductive DbxEntry
  | folder (path_lower : String)
  | file (name : String) (path_display : String)
  | other
deriving DecidableEq

def insertSorted (x : String) : List String → List String
  | [] => [x]
  | y :: ys => if x ≤ y then x :: y :: ys else y :: insertSorted x ys

/-- Python `sorted` on strings (ascending lexicographic). -/
def sortStrings (l : List String) : List String := l.foldr insertSorted []

/-- The `while queue` loop of `list_dropbox_excels` (src/app.py lines 47-55):
pop the queue head, list it — a transport error aborts the walk with the
results collected so far — then enqueue folders and collect the display path
of every file whose lowercased name ends in `.xls`/`.xlsx`. -/
def bfsExcels (lf : String → Except String (List DbxEntry)) :
    Nat → List String → List String → List String × Option String
  | _, [], results => (results, none)
  | 0, _ :: _, results => (results, none)
  | fuel + 1, current :: queue, results =>
      match lf current with
      | Except.error e => (results, some e)
      | Except.ok entries =>
          bfsExcels lf fuel
            (queue ++ entries.filterMap (fun en =>
              match en with
              | DbxEntry.folder p => some p
              | _ => none))
            (results ++ entries.filterMap (fun en =>
              match en with
              | DbxEntry.file nm pd => if is_excel_name nm then some pd else none
              | _ => none))

/-- `list_dropbox_excels(root_folder)` (src/app.py lines 43-58): run the
traversal from the root and `return sorted(results)`; the second component
records the transport error reported via `st.error`, if any. -/
def list_dropbox_excels (lf : String → Except String (List DbxEntry)) (fuel : Nat)
    (root_folder : String) : List String × Option String :=
  (sortStrings (bfsExcels lf fuel [root_folder] []).1,
   (bfsExcels lf fuel [root_folder] []).2)

/-- A remote store whose root holds one spreadsheet and one subfolder, and
where listing the subfolder raises a transport error. -/
def lfC2 : String → Except String (List DbxEntry) := fun p =>
  if p = "" then Except.ok [DbxEntry.file "a.xlsx" "/a.xlsx", DbxEntry.folder "/sub"]
  else Except.error "transport error"

/-- C2 counterexample: a transport error during the traversal does not make
`list_dropbox_excels` return an empty list — the spreadsheet path collected
before the fault is returned alongside the reported error. -/
theorem list_excels_error_counterexample :
    list_dropbox_excels lfC2 2 "" = (["/a.xlsx"], some "transport error") ∧
    (["/a.xlsx"] : List String) ≠ [] := by
  refine ⟨rfl, by decide⟩

/-- C2 (amended): when listing some folder raises a transport error, the
traversal is abandoned at that point and the error is reported, but the
spreadsheet paths accumulated before the fault are kept — `list_dropbox_excels`
returns them sorted (empty only when nothing had been collected yet). -/
theorem list_excels_error_keeps_accumulated
    (lf : String → Except String (List DbxEntry)) (fuel : Nat) (current : String)
    (queue results : List String) (e : String) (root_folder : String)
    (herr : lf current = Except.error e) :
    bfsExcels lf (fuel + 1) (current :: queue) results = (results, some e) ∧
    list_dropbox_excels lf (fuel + 1) root_folder =
      (sortStrings (bfsExcels lf (fuel + 1) [root_folder] []).1,
       (bfsExcels lf (fuel + 1) [root_folder] []).2) := by
  constructor
  · show (match lf current with
      | Except.error e => (results, some e)
      | Except.ok entries =>
          bfsExcels lf fuel
            (queue ++ entries.filterMap (fun en =>
              match en with
              | DbxEntry.folder p => some p
              | _ => none))
            (results ++ entries.filterMap (fun en =>
              match en with
              | DbxEntry.file nm pd => if is_excel_name nm then some pd else none
              | _ => none))) = (results, some e)
    rw [herr]
  · rfl

/-- Witness for the amended C2: the fault on `/sub` returns the already
collected `/a.xlsx` unchanged. -/
theorem list_excels_error_keeps_accumulated_witness :
    (bfsExcels lfC2 2 ["/sub"] ["/a.xlsx"] = (["/a.xlsx"], some "transport error") ∧
     list_dropbox_excels lfC2 2 "" =
       (sortStrings (bfsExcels lfC2 2 [""] []).1, (bfsExcels lfC2 2 [""] []).2)) :=
  list_excels_error_keeps_accumulated lfC2 1 "/sub" [] ["/a.xlsx"] "transport error" ""
    rfl
